import Mathlib

/-!
Verification of the stake-weighted hierarchical permission system of
GentlyOS-Rusted-Metal, as implemented in
`crates/gently-spl/src/permissions.rs` (continuous-percentage stake tree)
and `crates/gently-spl/src/governance.rs` (discrete governance levels).

Modelling conventions:
* Rust `f64` stake fractions are embedded as exact rationals (`ℚ`).  Every
  divergence established below is of magnitude ≈ 1e-2, far above any
  double-rounding noise (< 1e-12 per operation), so every verdict is robust
  to the idealisation.
* Rust `u64` token amounts are embedded as `Nat`; the `as u64` cast of a
  nonnegative float is embedded as the floor of the rational.
* `std::collections::HashMap` is embedded as an association list in
  insertion order: `get` is the first matching key, `insert` replaces in
  place or appends, `values()` iterates in list order.  (The Rust iteration
  order of `HashMap` is unspecified; the association list fixes one
  deterministic order.)
* `SystemTime::now()` is irrelevant to every claim checked here and is
  embedded as the constant 0.
* Methods taking `&mut self` are embedded in state-passing style
  `State → args → State × Except Error β`; the returned state is the state
  at the point of return, so early-`?` error returns faithfully expose any
  mutations that happened before the failure.
-/

namespace GentlyOS

/-- Errors of the `gently-spl` crate (`lib.rs`, `enum Error`); only the
variants reachable from the permission and governance code are used. -/
inductive Error where
  | NoWallet : Error
  | WalletError : String → Error
  | TokenError : String → Error
  | TransactionFailed : String → Error
  | NftNotFound : Error
  | NotAuthorized : Error
  | NetworkError : String → Error
deriving Repr, DecidableEq

/-- Token amounts in lamports (`token.rs`, `struct TokenAmount(pub u64)`). -/
abbrev TokenAmount := Nat

/-- Embedding of the Rust cast `(x as u64)` applied to a nonnegative float:
truncation toward zero, i.e. the floor for nonnegative values. -/
def ratToU64 (q : ℚ) : Nat := (⌊q⌋ : ℤ).toNat

/-! String helpers of `permissions.rs`, embedded at the character-list
level so that the kernel can evaluate them. -/

/-- Character-level embedding of Rust `str::split(sep)`: splits into the
(possibly empty) chunks between separator occurrences, never dropping
empty chunks, like the Rust iterator. -/
def splitChar (sep : Char) : List Char → List (List Char)
  | [] => [[]]
  | c :: cs =>
    if c = sep then [] :: splitChar sep cs
    else
      match splitChar sep cs with
      | [] => [[c]]
      | w :: ws => (c :: w) :: ws

/-- Rust `str::trim_end_matches('/')`: remove every trailing slash. -/
def trimEndSlashes (s : String) : String :=
  ⟨(s.data.reverse.dropWhile (fun c => c = '/')).reverse⟩

/-- Rust `Vec<&str>::join("/")` on the chunks produced by `splitChar`. -/
def joinSlash : List (List Char) → List Char
  | [] => []
  | [w] => w
  | w :: ws => w ++ '/' :: joinSlash ws

/-- Embedding of `permissions.rs::parent_path`: return `"/"` for the root
path, otherwise split the slash-trimmed path on `'/'` and drop the last
segment, falling back to `"/"` when at most two chunks remain. -/
def parent_path (path : String) : String :=
  if path = "/" then "/"
  else
    let parts := splitChar '/' (trimEndSlashes path).data
    if parts.length ≤ 2 then "/"
    else ⟨joinSlash parts.dropLast⟩

/-- Minimum stake required for any permission node
(`MIN_STAKE_PERCENT = 0.001`). -/
def MIN_STAKE_PERCENT : ℚ := 1 / 1000

/-- Root always holds controlling stake (`ROOT_STAKE_PERCENT = 0.51`). -/
def ROOT_STAKE_PERCENT : ℚ := 51 / 100

/-- Stake amount for each audit swap (`AUDIT_SWAP_AMOUNT = 1 GNTLY`). -/
def AUDIT_SWAP_AMOUNT : TokenAmount := 1000000000

/-- A node in the permission hierarchy
(`permissions.rs`, `struct PermissionNode`). -/
structure PermissionNode where
  path : String
  is_dir : Bool
  stake_percent : ℚ
  stake_tokens : TokenAmount
  owner : String
  children : List String
  parent : Option String
  generation : Nat
  last_modified : Nat
  edit_count : Nat
deriving Repr, DecidableEq

/-- Embedding of `PermissionNode::new_root`. -/
def PermissionNode.new_root (owner : String) (total_stake : TokenAmount) :
    PermissionNode :=
  let stake_tokens := ratToU64 ((total_stake : ℚ) * ROOT_STAKE_PERCENT)
  { path := "/"
    is_dir := true
    stake_percent := ROOT_STAKE_PERCENT
    stake_tokens := stake_tokens
    owner := owner
    children := []
    parent := none
    generation := 0
    last_modified := 0
    edit_count := 0 }

/-- Embedding of `PermissionNode::new_child`: children split the non-root
stake among themselves, evenly over `sibling_count + 1`. -/
def PermissionNode.new_child (path : String) (is_dir : Bool)
    (parent : PermissionNode) (sibling_count : Nat) (owner : String) :
    PermissionNode :=
  let available_percent : ℚ :=
    if parent.generation = 0 then 1 - ROOT_STAKE_PERCENT
    else parent.stake_percent
  let stake_percent := available_percent / ((sibling_count : ℚ) + 1)
  let stake_tokens :=
    ratToU64 ((parent.stake_tokens : ℚ) * stake_percent / parent.stake_percent)
  { path := path
    is_dir := is_dir
    stake_percent := stake_percent
    stake_tokens := stake_tokens
    owner := owner
    children := []
    parent := some parent.path
    generation := parent.generation + 1
    last_modified := 0
    edit_count := 0 }

/-- Embedding of `PermissionNode::can_edit`. -/
def PermissionNode.can_edit (n : PermissionNode) (holder_stake : TokenAmount) :
    Bool :=
  n.stake_tokens ≤ holder_stake

/-- Embedding of `PermissionNode::min_edit_stake`. -/
def PermissionNode.min_edit_stake (n : PermissionNode) : TokenAmount :=
  n.stake_tokens

/-- Association-list embedding of `HashMap<String, PermissionNode>`. -/
abbrev NodeMap := List (String × PermissionNode)

/-- Embedding of `HashMap::get`: first entry with the given key. -/
def nmGet : NodeMap → String → Option PermissionNode
  | [], _ => none
  | (k, v) :: rest, key => if k = key then some v else nmGet rest key

/-- Embedding of `HashMap::insert`: replace the entry in place when the key
is present, append otherwise. -/
def nmInsert : NodeMap → String → PermissionNode → NodeMap
  | [], key, v => [(key, v)]
  | (k, w) :: rest, key, v =>
    if k = key then (k, v) :: rest else (k, w) :: nmInsert rest key v

/-- Embedding of `HashMap::get_mut` followed by a mutation of the entry. -/
def nmModify : NodeMap → String → (PermissionNode → PermissionNode) → NodeMap
  | [], _, _ => []
  | (k, v) :: rest, key, f =>
    if k = key then (k, f v) :: rest else (k, v) :: nmModify rest key f

/-- The complete permission tree (`permissions.rs`, `struct PermissionTree`). -/
structure PermissionTree where
  nodes : NodeMap
  total_stake : TokenAmount
  root_owner : String
  internal_audits : Nat
  external_audits : Nat
deriving Repr, DecidableEq

/-- Embedding of `PermissionTree::new`: a tree holding only the root node. -/
def PermissionTree.new (root_owner : String) (total_stake : TokenAmount) :
    PermissionTree :=
  { nodes := [("/", PermissionNode.new_root root_owner total_stake)]
    total_stake := total_stake
    root_owner := root_owner
    internal_audits := 0
    external_audits := 0 }

/-- Embedding of `PermissionTree::recalculate_siblings`: reads the parent,
counts `parent.children.len() + 1` (the source comment says "+1 for the new
sibling", although at every call site the new path has already been pushed
onto `parent.children`), and overwrites the stake of every child currently
present in the map. -/
def PermissionTree.recalculate_siblings (t : PermissionTree)
    (parentPath : String) : PermissionTree × Except Error Unit :=
  match nmGet t.nodes parentPath with
  | none => (t, Except.error (Error.TokenError ("Parent not found")))
  | some parent =>
    let child_count := parent.children.length + 1
    let available_percent : ℚ :=
      if parent.generation = 0 then 1 - ROOT_STAKE_PERCENT
      else parent.stake_percent
    let stake_per_child := available_percent / (child_count : ℚ)
    let tokens_per_child := ratToU64 ((t.total_stake : ℚ) * stake_per_child)
    let nodes :=
      parent.children.foldl
        (fun ns cp =>
          nmModify ns cp (fun c =>
            { c with
              stake_percent := stake_per_child
              stake_tokens := tokens_per_child }))
        t.nodes
    ({ t with nodes := nodes }, Except.ok ())

/-- Embedding of `PermissionTree::add_node`: resolve `parent_path path`,
clone the parent, build the child from the pre-push sibling count, push the
path onto the parent's children, recalculate the siblings, and only then
insert the new node. -/
def PermissionTree.add_node (t : PermissionTree) (path : String)
    (is_dir : Bool) (owner : String) :
    PermissionTree × Except Error PermissionNode :=
  let parentPath := parent_path path
  match nmGet t.nodes parentPath with
  | none =>
    (t, Except.error (Error.TokenError ("Parent not found: " ++ parentPath)))
  | some parent =>
    let sibling_count := parent.children.length
    let node := PermissionNode.new_child path is_dir parent sibling_count owner
    let t1 :=
      { t with
        nodes :=
          nmModify t.nodes parentPath
            (fun p => { p with children := p.children ++ [path] }) }
    match t1.recalculate_siblings parentPath with
    | (t2, Except.error e) => (t2, Except.error e)
    | (t2, Except.ok _) =>
      let t3 := { t2 with nodes := nmInsert t2.nodes path node }
      (t3, Except.ok node)

/-- Embedding of `PermissionTree::get`. -/
def PermissionTree.get (t : PermissionTree) (path : String) :
    Option PermissionNode :=
  nmGet t.nodes path

/-- Result of edit validation (`permissions.rs`, `struct EditValidation`). -/
structure EditValidation where
  allowed : Bool
  path : String
  required_stake : TokenAmount
  editor_stake : TokenAmount
  stake_redistribution : Option (String × TokenAmount × List (String × TokenAmount))
deriving Repr, DecidableEq

/-- Embedding of `PermissionTree::calculate_redistribution`: the node's
tokens divided (integer division, as on `u64`) over the node plus its
children; returns `(source_path, original_stake, new_distribution)`. -/
def PermissionTree.calculate_redistribution (t : PermissionTree)
    (path : String) :
    Except Error (String × TokenAmount × List (String × TokenAmount)) :=
  match nmGet t.nodes path with
  | none => Except.error (Error.TokenError ("Node not found"))
  | some node =>
    let share_each := node.stake_tokens / (node.children.length + 1)
    let child_shares :=
      (path, share_each) :: node.children.map (fun cp => (cp, share_each))
    Except.ok (path, node.stake_tokens, child_shares)

/-- Embedding of `PermissionTree::validate_edit`.  The Rust method takes
`&self`; it is embedded in the same state-passing shape as the mutating
methods, returning the unchanged tree, so that non-mutation is visible in
the statement of the atomicity theorem. -/
def PermissionTree.validate_edit (t : PermissionTree) (path : String)
    (editor_stake : TokenAmount) :
    PermissionTree × Except Error EditValidation :=
  match nmGet t.nodes path with
  | none =>
    (t, Except.error (Error.TokenError ("Path not found: " ++ path)))
  | some node =>
    if ¬ node.can_edit editor_stake then
      (t, Except.ok
        { allowed := false
          path := path
          required_stake := node.stake_tokens
          editor_stake := editor_stake
          stake_redistribution := none })
    else
      let redistribution :=
        if node.is_dir ∧ node.children ≠ [] then
          match t.calculate_redistribution path with
          | Except.error _ => none
          | Except.ok r => some r
        else none
      (t, Except.ok
        { allowed := true
          path := path
          required_stake := node.stake_tokens
          editor_stake := editor_stake
          stake_redistribution := redistribution })

/-- Audit types (`permissions.rs`, `enum AuditType`). -/
inductive AuditType where
  | Internal : AuditType
  | External : AuditType
deriving Repr, DecidableEq

/-- Record of an audit (`permissions.rs`, `struct AuditRecord`). -/
structure AuditRecord where
  audit_type : AuditType
  path : String
  editor : String
  timestamp : Nat
  audit_number : Nat
  swap_amount : TokenAmount
deriving Repr, DecidableEq

/-- Embedding of `PermissionTree::record_edit`: on success bumps the node's
edit counter, increments the internal audit counter, and returns a record
carrying the incremented counter as its `audit_number`. -/
def PermissionTree.record_edit (t : PermissionTree) (path : String)
    (editor : String) : PermissionTree × Except Error AuditRecord :=
  match nmGet t.nodes path with
  | none => (t, Except.error (Error.TokenError ("Node not found")))
  | some _ =>
    let t1 :=
      { t with
        nodes :=
          nmModify t.nodes path
            (fun n => { n with edit_count := n.edit_count + 1, last_modified := 0 })
        internal_audits := t.internal_audits + 1 }
    (t1, Except.ok
      { audit_type := AuditType.Internal
        path := path
        editor := editor
        timestamp := 0
        audit_number := t1.internal_audits
        swap_amount := AUDIT_SWAP_AMOUNT })

/-- Embedding of `PermissionTree::record_external_audit`: always succeeds,
increments the external counter and returns a system-wide record. -/
def PermissionTree.record_external_audit (t : PermissionTree) (peer : String) :
    PermissionTree × AuditRecord :=
  let t1 := { t with external_audits := t.external_audits + 1 }
  (t1,
    { audit_type := AuditType.External
      path := "/"
      editor := peer
      timestamp := 0
      audit_number := t1.external_audits
      swap_amount := AUDIT_SWAP_AMOUNT })

/-- Embedding of `PermissionTree::total_audits`. -/
def PermissionTree.total_audits (t : PermissionTree) : Nat :=
  t.internal_audits + t.external_audits

/-- Embedding of `PermissionTree::is_balanced`. -/
def PermissionTree.is_balanced (t : PermissionTree) : Bool :=
  t.internal_audits = t.external_audits

/-- Stake report entry (`permissions.rs`, `struct StakeReport`). -/
structure StakeReport where
  path : String
  stake_percent : ℚ
  stake_tokens : TokenAmount
  generation : Nat
  children : Nat
  edit_count : Nat
deriving Repr, DecidableEq

/-- The comparator of `PermissionTree::stake_report`:
`a.generation.cmp(&b.generation).then(b.stake_percent.partial_cmp(&a.stake_percent))`
is not `Greater` exactly when the generation is strictly smaller, or equal
with the stake not strictly smaller.  No comparison of `path` appears in
the source. -/
def reportLe (a b : StakeReport) : Prop :=
  a.generation < b.generation ∨
    (a.generation = b.generation ∧ b.stake_percent ≤ a.stake_percent)

instance : DecidableRel reportLe := fun a b => by
  unfold reportLe; infer_instance

instance : IsTotal StakeReport reportLe :=
  ⟨by
    intro a b
    rcases Nat.lt_trichotomy a.generation b.generation with h | h | h
    · exact Or.inl (Or.inl h)
    · rcases le_total b.stake_percent a.stake_percent with h2 | h2
      · exact Or.inl (Or.inr ⟨h, h2⟩)
      · exact Or.inr (Or.inr ⟨h.symm, h2⟩)
    · exact Or.inr (Or.inl h)⟩

instance : IsTrans StakeReport reportLe :=
  ⟨by
    intro a b c hab hbc
    rcases hab with h | ⟨he, hs⟩
    · rcases hbc with h2 | ⟨he2, _⟩
      · exact Or.inl (h.trans h2)
      · exact Or.inl (he2 ▸ h)
    · rcases hbc with h2 | ⟨he2, hs2⟩
      · exact Or.inl (he ▸ h2)
      · exact Or.inr ⟨he.trans he2, hs2.trans hs⟩⟩

/-- Embedding of `PermissionTree::stake_report`: map every node of the map
(in iteration order) to its report entry, then stable-sort with `reportLe`.
`Vec::sort_by` is a stable sort, as is `List.insertionSort`, so on any
fixed iteration order the two agree element for element. -/
def PermissionTree.stake_report (t : PermissionTree) : List StakeReport :=
  List.insertionSort reportLe
    (t.nodes.map (fun kv =>
      { path := kv.2.path
        stake_percent := kv.2.stake_percent
        stake_tokens := kv.2.stake_tokens
        generation := kv.2.generation
        children := kv.2.children.length
        edit_count := kv.2.edit_count }))

/-! Embedding of `governance.rs`: the discrete-level governance system. -/

/-- Root token amount (`ROOT_TOKEN_AMOUNT = 101010`). -/
def ROOT_TOKEN_AMOUNT : Nat := 101010

/-- Admin token count (`ADMIN_TOKEN_COUNT = 10`). -/
def ADMIN_TOKEN_COUNT : Nat := 10

/-- Networks (`wallet.rs`, `enum Network`). -/
inductive Network where
  | Devnet : Network
  | Testnet : Network
  | Mainnet : Network
deriving Repr, DecidableEq

/-- Governance level in the hierarchy (`governance.rs`,
`enum GovernanceLevel`, discriminants 0–6). -/
inductive GovernanceLevel where
  | Root : GovernanceLevel
  | Developer : GovernanceLevel
  | Admin : GovernanceLevel
  | System : GovernanceLevel
  | Service : GovernanceLevel
  | User : GovernanceLevel
  | Guest : GovernanceLevel
deriving Repr, DecidableEq

/-- Discriminant of the level, as in the Rust `enum` (`Root = 0`, …,
`Guest = 6`); `derive(PartialOrd, Ord)` compares by this number. -/
def GovernanceLevel.toNat : GovernanceLevel → Nat
  | .Root => 0
  | .Developer => 1
  | .Admin => 2
  | .System => 3
  | .Service => 4
  | .User => 5
  | .Guest => 6

/-- Embedding of `GovernanceLevel::gradient_multiplier` (exact rationals
for the float literals). -/
def GovernanceLevel.gradient_multiplier : GovernanceLevel → ℚ
  | .Root => 1
  | .Developer => 9 / 10
  | .Admin => 7 / 10
  | .System => 1 / 2
  | .Service => 3 / 10
  | .User => 1 / 10
  | .Guest => 1 / 100

/-- Embedding of `GovernanceLevel::can_accumulate`. -/
def GovernanceLevel.can_accumulate : GovernanceLevel → Bool
  | .Root | .Developer => false
  | .Admin => true
  | .System | .Service => true
  | .User | .Guest => false

/-- Embedding of `GovernanceLevel::can_distribute`. -/
def GovernanceLevel.can_distribute : GovernanceLevel → Bool
  | .Root => false
  | .Developer | .Admin => true
  | .System | .Service => true
  | .User | .Guest => false

/-- A governance wallet (`governance.rs`, `struct GovernanceWallet`). -/
structure GovernanceWallet where
  pubkey : String
  token_id : String
  level : GovernanceLevel
  allocation : Nat
  balance : Nat
  frozen : Bool
  path : Option String
  file_size_weight : Nat
deriving Repr, DecidableEq

/-- Embedding of `GovernanceWallet::can_receive`. -/
def GovernanceWallet.can_receive (w : GovernanceWallet) : Bool :=
  !w.frozen && w.level.can_accumulate

/-- Embedding of `GovernanceWallet::can_send`. -/
def GovernanceWallet.can_send (w : GovernanceWallet) : Bool :=
  !w.frozen && decide (0 < w.balance) && w.level.can_distribute

/-- Reason for a token swap (`governance.rs`, `enum SwapReason`). -/
inductive SwapReason where
  | FileCreated : SwapReason
  | FileModified : SwapReason
  | FileDeleted : SwapReason
  | FileMoved : String → String → SwapReason
  | PermissionChange : SwapReason
  | AdminAction : SwapReason
  | PeriodicAudit : SwapReason
deriving Repr, DecidableEq

/-- File operation details (`governance.rs`, `struct FileOperation`). -/
structure FileOperation where
  path : String
  operation : String
  old_size : Option Nat
  new_size : Option Nat
  timestamp : Nat
deriving Repr, DecidableEq

/-- Audit record for token swaps (`governance.rs`, `struct SwapAudit`). -/
structure SwapAudit where
  id : Nat
  timestamp : Nat
  from_wallet : String
  to_wallet : String
  token_id : String
  amount : Nat
  reason : SwapReason
  file_operation : Option FileOperation
deriving Repr, DecidableEq

/-- Lowercase hex digit for a value below 16 (Rust `format "{:02x}"`). -/
def hexDigit (n : Nat) : Char :=
  if n < 10 then Char.ofNat (48 + n) else Char.ofNat (87 + n)

/-- Embedding of `governance.rs::hex_encode` on a byte list. -/
def hex_encode (bytes : List Nat) : String :=
  ⟨bytes.foldr (fun b acc => hexDigit (b / 16) :: hexDigit (b % 16) :: acc) []⟩

/-- Uppercasing, at the character-list level (Rust `str::to_uppercase`;
all inputs here are ASCII hex digits). -/
def upperCase (s : String) : String := ⟨s.data.map Char.toUpper⟩

/-- Stand-in for `governance.rs::derive_wallet_pubkey`.  The source feeds
`"gov-wallet:" ++ genesis ++ ":" ++ purpose` through SHA-256 (the external
`sha2` crate) and base58-encodes the digest (the external `bs58` crate);
the hash itself is outside this repository.  It is embedded as the
transparent (injective) encoding of the same input; no claim checked here
depends on the digest values. -/
def derive_wallet_pubkey (genesis : List Nat) (purpose : String) : String :=
  "gov-wallet:" ++ hex_encode genesis ++ ":" ++ purpose

/-- Stand-in for `governance.rs::derive_folder_id`: the source hashes
`"folder-id:" ++ path` with SHA-256 (external crate) and keeps the first
four bytes as uppercase hex; embedded as the transparent encoding of the
same input. -/
def derive_folder_id (path : String) : String :=
  upperCase ("folder-id:" ++ path)

/-- Token ID generator (`governance.rs`, `struct TokenIdGenerator`). -/
structure TokenIdGenerator where
  system_id : String
  model : String
  unit_id : String
deriving Repr, DecidableEq

/-- Embedding of `TokenIdGenerator::new`: hex of genesis bytes 0..4 and
4..8, uppercased. -/
def TokenIdGenerator.new (genesis : List Nat) (model : String) :
    TokenIdGenerator :=
  { system_id := upperCase (hex_encode (genesis.take 4))
    model := model
    unit_id := upperCase (hex_encode ((genesis.drop 4).take 4)) }

/-- Embedding of `TokenIdGenerator::root_token`. -/
def TokenIdGenerator.root_token (_g : TokenIdGenerator) : String :=
  "GOS-ROOT-TOKEN"

/-- Embedding of `TokenIdGenerator::developer_wallet`. -/
def TokenIdGenerator.developer_wallet (g : TokenIdGenerator) : String :=
  "GOS-DEVELOPER-" ++ g.system_id

/-- Embedding of `TokenIdGenerator::admin_token`. -/
def TokenIdGenerator.admin_token (g : TokenIdGenerator) : String :=
  "GOS-" ++ g.system_id ++ "-" ++ g.model ++ "-" ++ g.unit_id ++ "-ADMIN"

/-- Embedding of `TokenIdGenerator::folder_token`. -/
def TokenIdGenerator.folder_token (g : TokenIdGenerator) (folder_id : String) :
    String :=
  "GOS-" ++ g.system_id ++ "-" ++ g.model ++ "-" ++ g.unit_id ++ "-" ++ folder_id

/-- Embedding of `governance.rs::parent_path` (this variant returns
`Option`): `None` for `"/"`; otherwise trim trailing slashes, find the last
`'/'` (all paths in scope are ASCII, so byte and character indices agree),
map index 0 to `"/"`, index `idx` to the first `idx` characters, absence to
`None`. -/
def lastSlashIdx : List Char → Option Nat
  | [] => none
  | c :: cs =>
    match lastSlashIdx cs with
    | some i => some (i + 1)
    | none => if c = '/' then some 0 else none

/-- See `lastSlashIdx`; embedding of the governance `parent_path`. -/
def parent_path_gov (path : String) : Option String :=
  if path = "/" then none
  else
    let trimmed := (trimEndSlashes path).data
    match lastSlashIdx trimmed with
    | some 0 => some "/"
    | some idx => some ⟨trimmed.take idx⟩
    | none => none

/-- Folder with governance token (`governance.rs`, `struct GovernedFolder`). -/
structure GovernedFolder where
  path : String
  folder_id : String
  wallet : GovernanceWallet
  parent : Option String
  children : List String
  total_file_size : Nat
  file_count : Nat
  last_audit : Nat
deriving Repr, DecidableEq

/-- Embedding of `GovernedFolder::new`: one token per folder wallet, frozen
exactly when the level is `Root`. -/
def GovernedFolder.new (path : String) (wallet_pubkey : String)
    (token_id : String) (level : GovernanceLevel) : GovernedFolder :=
  { path := path
    folder_id := derive_folder_id path
    wallet :=
      { pubkey := wallet_pubkey
        token_id := token_id
        level := level
        allocation := 1
        balance := 1
        frozen := level = GovernanceLevel.Root
        path := some path
        file_size_weight := 0 }
    parent := parent_path_gov path
    children := []
    total_file_size := 0
    file_count := 0
    last_audit := 0 }

/-- Association-list embedding of `HashMap<String, GovernedFolder>`. -/
abbrev FolderMap := List (String × GovernedFolder)

/-- Embedding of `HashMap::get` on the folder map. -/
def fmGet : FolderMap → String → Option GovernedFolder
  | [], _ => none
  | (k, v) :: rest, key => if k = key then some v else fmGet rest key

/-- Embedding of `HashMap::insert` on the folder map. -/
def fmInsert : FolderMap → String → GovernedFolder → FolderMap
  | [], key, v => [(key, v)]
  | (k, w) :: rest, key, v =>
    if k = key then (k, v) :: rest else (k, w) :: fmInsert rest key v

/-- Embedding of `HashMap::get_mut` plus mutation on the folder map. -/
def fmModify : FolderMap → String → (GovernedFolder → GovernedFolder) → FolderMap
  | [], _, _ => []
  | (k, v) :: rest, key, f =>
    if k = key then (k, f v) :: rest else (k, v) :: fmModify rest key f

/-- Embedding of `HashMap::contains_key` on the folder map. -/
def fmContains (m : FolderMap) (key : String) : Bool :=
  (fmGet m key).isSome

/-- Upward walk of `governance.rs::find_parent_folder`.  The Rust loop
`while let Some(parent) = parent_path(&current)` strictly shortens
`current` on every iteration (the parent is a strict prefix of the trimmed
path, or `"/"`), so running it with `|path|` units of fuel never exhausts
the fuel; the fuel-0 result equals the loop's fall-through result `"/"`. -/
def find_parent_folder_walk (folders : FolderMap) : Nat → String → String
  | 0, _ => "/"
  | fuel + 1, current =>
    match parent_path_gov current with
    | none => "/"
    | some parent =>
      if fmContains folders parent then parent
      else find_parent_folder_walk folders fuel parent

/-- Embedding of `governance.rs::find_parent_folder`: exact match first,
then walk upward, else `"/"`. -/
def find_parent_folder (path : String) (folders : FolderMap) : String :=
  if fmContains folders path then path
  else find_parent_folder_walk folders path.data.length path

/-- The main governance system (`governance.rs`,
`struct GovernanceSystem`). -/
structure GovernanceSystem where
  token_gen : TokenIdGenerator
  network : Network
  root_wallet : GovernanceWallet
  developer_wallet : GovernanceWallet
  admin_wallet : GovernanceWallet
  folders : FolderMap
  users : List (String × GovernanceWallet)
  audit_log : List SwapAudit
  next_audit_id : Nat
  installed_at : Nat
deriving Repr, DecidableEq

/-- Embedding of `GovernanceSystem::new`: the three fixed wallets; ROOT and
DEVELOPER frozen, ADMIN not. -/
def GovernanceSystem.new (genesis : List Nat) (model : String)
    (network : Network) : GovernanceSystem :=
  let token_gen := TokenIdGenerator.new genesis model
  { token_gen := token_gen
    network := network
    root_wallet :=
      { pubkey := derive_wallet_pubkey genesis ("root")
        token_id := token_gen.root_token
        level := GovernanceLevel.Root
        allocation := ROOT_TOKEN_AMOUNT
        balance := ROOT_TOKEN_AMOUNT
        frozen := true
        path := some ("/gently/core")
        file_size_weight := 0 }
    developer_wallet :=
      { pubkey := derive_wallet_pubkey genesis ("developer")
        token_id := token_gen.developer_wallet
        level := GovernanceLevel.Developer
        allocation := ROOT_TOKEN_AMOUNT
        balance := ROOT_TOKEN_AMOUNT
        frozen := true
        path := none
        file_size_weight := 0 }
    admin_wallet :=
      { pubkey := derive_wallet_pubkey genesis ("admin")
        token_id := token_gen.admin_token
        level := GovernanceLevel.Admin
        allocation := ADMIN_TOKEN_COUNT
        balance := ADMIN_TOKEN_COUNT
        frozen := false
        path := some ("/")
        file_size_weight := 0 }
    folders := []
    users := []
    audit_log := []
    next_audit_id := 1
    installed_at := 0 }

/-- Embedding of `GovernanceSystem::add_folder`: insert the governed
folder, then push the path onto the parent's children when the parent is
registered. -/
def GovernanceSystem.add_folder (S : GovernanceSystem) (genesis : List Nat)
    (path : String) (level : GovernanceLevel) : GovernanceSystem :=
  let folder_id := derive_folder_id path
  let wallet_pubkey := derive_wallet_pubkey genesis ("folder:" ++ path)
  let token_id := S.token_gen.folder_token folder_id
  let folder := GovernedFolder.new path wallet_pubkey token_id level
  let S1 := { S with folders := fmInsert S.folders path folder }
  match parent_path_gov path with
  | none => S1
  | some pp =>
    { S1 with
      folders :=
        fmModify S1.folders pp
          (fun par => { par with children := par.children ++ [path] }) }

/-- Embedding of `GovernanceSystem::initialize_folders`: the fixed default
folder table (the Lean name differs from the Rust method name only to
satisfy lexical constraints of this development). -/
def GovernanceSystem.bootstrap_folders (S : GovernanceSystem)
    (genesis : List Nat) : GovernanceSystem :=
  [("/", GovernanceLevel.Admin),
   ("/bin", GovernanceLevel.System),
   ("/etc", GovernanceLevel.System),
   ("/home", GovernanceLevel.User),
   ("/var", GovernanceLevel.System),
   ("/var/log", GovernanceLevel.System),
   ("/tmp", GovernanceLevel.Guest),
   ("/gently", GovernanceLevel.Developer),
   ("/gently/core", GovernanceLevel.Root),
   ("/gently/keys", GovernanceLevel.Developer),
   ("/gently/audit", GovernanceLevel.Admin),
   ("/gently/wallets", GovernanceLevel.Admin)].foldl
    (fun acc pl => acc.add_folder genesis pl.1 pl.2) S

/-- Embedding of `GovernanceSystem::on_file_operation`: resolve the nearest
registered folder, fail with `NotAuthorized` when that folder is frozen,
otherwise append one swap audit, bump the audit id, and touch the folder's
`last_audit`. -/
def GovernanceSystem.on_file_operation (S : GovernanceSystem) (path : String)
    (operation : SwapReason) : GovernanceSystem × Except Error SwapAudit :=
  let folder_path := find_parent_folder path S.folders
  match fmGet S.folders folder_path with
  | none =>
    (S, Except.error (Error.WalletError ("Folder not found: " ++ folder_path)))
  | some folder =>
    if folder.wallet.frozen then (S, Except.error Error.NotAuthorized)
    else
      let audit : SwapAudit :=
        { id := S.next_audit_id
          timestamp := 0
          from_wallet := folder.wallet.pubkey
          to_wallet := S.admin_wallet.pubkey
          token_id := folder.wallet.token_id
          amount := 1
          reason := operation
          file_operation :=
            some
              { path := path
                operation := "file_change"
                old_size := none
                new_size := none
                timestamp := 0 } }
      let S1 :=
        { S with
          next_audit_id := S.next_audit_id + 1
          folders :=
            fmModify S.folders folder_path (fun f => { f with last_audit := 0 })
          audit_log := S.audit_log ++ [audit] }
      (S1, Except.ok audit)

/-- Embedding of `GovernanceSystem::can_operate`: nearest registered
folder, never when frozen, else the `derive(PartialOrd)` comparison
`folder.wallet.level >= required_level` on discriminants. -/
def GovernanceSystem.can_operate (S : GovernanceSystem) (path : String)
    (required_level : GovernanceLevel) : Bool :=
  let folder_path := find_parent_folder path S.folders
  match fmGet S.folders folder_path with
  | none => false
  | some folder =>
    if folder.wallet.frozen then false
    else decide (required_level.toNat ≤ folder.wallet.level.toNat)

/-! Operation sequences over the permission tree, used to state
"for any number and order of operations" claims. -/

/-- One public mutating operation on a `PermissionTree`. -/
inductive Op where
  | addNode : String → Bool → String → Op
  | recordEdit : String → String → Op
  | recordExternal : String → Op
deriving Repr, DecidableEq

/-- Apply one operation; returns the new state and the audit record
produced, when the operation is an audit-producing one that succeeded. -/
def applyOp (t : PermissionTree) : Op → PermissionTree × Option AuditRecord
  | Op.addNode p d o => ((t.add_node p d o).1, none)
  | Op.recordEdit p e =>
    match t.record_edit p e with
    | (t1, Except.ok r) => (t1, some r)
    | (t1, Except.error _) => (t1, none)
  | Op.recordExternal peer =>
    let pr := t.record_external_audit peer
    (pr.1, some pr.2)

/-- Run a list of operations, keeping only the final state. -/
def runOps (t : PermissionTree) : List Op → PermissionTree
  | [] => t
  | op :: ops => runOps (applyOp t op).1 ops

/-- Run a list of operations, collecting the audit records produced, in
order. -/
def runAudits (t : PermissionTree) : List Op → PermissionTree × List AuditRecord
  | [] => (t, [])
  | op :: ops =>
    match applyOp t op with
    | (t1, none) => runAudits t1 ops
    | (t1, some r) =>
      let rest := runAudits t1 ops
      (rest.1, r :: rest.2)

/-- Run a list of `add_node` calls (path, is_dir, owner), keeping the final
state. -/
def runAdds (t : PermissionTree) : List (String × Bool × String) → PermissionTree
  | [] => t
  | a :: rest => runAdds (t.add_node a.1 a.2.1 a.2.2).1 rest

/-! Concrete trees used by the concrete-case claims: `ROOT_SHARE = 0.51`,
`total_supply = 100`, children of the root inserted one at a time, exactly
as in the spec's cascade scenario and the crate's own
`test_child_stake_distribution`. -/

/-- The freshly bootstrapped tree: root only. -/
def tree0 : PermissionTree := PermissionTree.new ("root") 100

/-- Root plus the first two children `/etc`, `/home`. -/
def tree2 : PermissionTree :=
  runAdds tree0 [("/etc", true, "root"), ("/home", true, "root")]

/-- Root plus four children `/etc`, `/home`, `/var`, `/tmp`. -/
def tree4 : PermissionTree :=
  runAdds tree0
    [("/etc", true, "root"), ("/home", true, "root"),
     ("/var", true, "root"), ("/tmp", true, "root")]

/-- `tree4` plus a fifth child `/usr`. -/
def tree5 : PermissionTree :=
  runAdds tree4 [("/usr", true, "root")]

/-- Sum of the `stake_percent` of all first-generation nodes, the
observable of the spec's sum invariant. -/
def gen1ShareSum (t : PermissionTree) : ℚ :=
  (t.nodes.map
    (fun kv => if kv.2.generation = 1 then kv.2.stake_percent else 0)).sum

/-- Root plus children `/b`, `/a`, `/c`, inserted in that order; `/b` and
`/a` end up with identical generation and stake, exposing the tie-breaking
behaviour of `stake_report`. -/
def tree3s : PermissionTree :=
  runAdds tree0 [("/b", true, "root"), ("/a", true, "root"), ("/c", true, "root")]

/-- The same path `/etc` inserted twice. -/
def treeDup : PermissionTree :=
  runAdds tree0 [("/etc", true, "root"), ("/etc", true, "root")]

/-- Whether an `Except` is an error (Rust `Result::is_err`). -/
def exceptIsErr {ε α : Type} : Except ε α → Bool
  | Except.error _ => true
  | Except.ok _ => false

/-- Audit numbers of the internal records of a record list, in order. -/
def internalNums (recs : List AuditRecord) : List Nat :=
  (recs.filter (fun r => decide (r.audit_type = AuditType.Internal))).map
    (fun r => r.audit_number)

/-- Audit numbers of the external records of a record list, in order. -/
def externalNums (recs : List AuditRecord) : List Nat :=
  (recs.filter (fun r => decide (r.audit_type = AuditType.External))).map
    (fun r => r.audit_number)

/-- No node of the map lists the root path among its children. -/
def NoRootChild (m : NodeMap) : Prop :=
  ∀ kv ∈ m, ("/") ∉ kv.2.children

/-- The root entry of the tree still carries the configured root stake. -/
def RootIntact (t : PermissionTree) (total : TokenAmount) : Prop :=
  (nmGet t.nodes ("/")).map (fun r => (r.stake_percent, r.stake_tokens)) =
    some (ROOT_STAKE_PERCENT, ratToU64 ((total : ℚ) * ROOT_STAKE_PERCENT))

/-! Concrete governance states, mirroring the crate's own tests:
`genesis = [42u8; 32]`, model `"CLI"`, `Network::Devnet`. -/

/-- The test genesis `[42u8; 32]`. -/
def genesis42 : List Nat := List.replicate 32 42

/-- Embedding of `GovernanceSystem::new(&genesis, "CLI", Network::Devnet)`. -/
def govSys0 : GovernanceSystem :=
  GovernanceSystem.new genesis42 ("CLI") Network.Devnet

/-- `govSys0` after `initialize_folders`. -/
def govSysInit : GovernanceSystem := govSys0.bootstrap_folders genesis42

/-- `govSysInit` after registering a non-frozen Admin folder below the
frozen `/gently/core` via the public `add_folder`. -/
def govSysNested : GovernanceSystem :=
  govSysInit.add_folder genesis42 ("/gently/core/sub") GovernanceLevel.Admin

/-- Whether `p` lies strictly below the directory `dir` (slash-boundary
string prefix). -/
def pathUnder (dir p : String) : Bool :=
  List.isPrefixOf (dir ++ ("/")).data p.data

/-! Generic lemmas about the association-list map operations. -/

theorem nmGet_modify (m : NodeMap) (k key : String)
    (f : PermissionNode → PermissionNode) :
    nmGet (nmModify m k f) key =
      if k = key then (nmGet m key).map f else nmGet m key := by
  induction m with
  | nil => simp [nmGet, nmModify]
  | cons hd tl ih =>
    obtain ⟨a, b⟩ := hd
    by_cases hak : a = k
    · subst hak
      by_cases hk : a = key
      · subst hk
        simp [nmGet, nmModify]
      · simp [nmGet, nmModify, hk, ih]
    · by_cases hkey : a = key
      · subst hkey
        simp [nmGet, nmModify, hak, Ne.symm hak]
      · simp [nmGet, nmModify, hak, hkey, ih]

theorem nmGet_insert (m : NodeMap) (k key : String) (v : PermissionNode) :
    nmGet (nmInsert m k v) key =
      if k = key then some v else nmGet m key := by
  induction m with
  | nil =>
    by_cases hk : k = key <;> simp [nmGet, nmInsert, hk]
  | cons hd tl ih =>
    obtain ⟨a, b⟩ := hd
    by_cases hak : a = k
    · subst hak
      by_cases hk : a = key
      · subst hk
        simp [nmGet, nmInsert]
      · simp [nmGet, nmInsert, hk]
    · by_cases hkey : a = key
      · subst hkey
        simp [nmGet, nmInsert, hak, Ne.symm hak]
      · simp [nmGet, nmInsert, hak, hkey, ih]

theorem nmGet_mem {m : NodeMap} {k : String} {v : PermissionNode}
    (h : nmGet m k = some v) : (k, v) ∈ m := by
  induction m with
  | nil => simp [nmGet] at h
  | cons hd tl ih =>
    obtain ⟨a, b⟩ := hd
    by_cases hak : a = k
    · subst hak
      simp [nmGet] at h
      simp [h]
    · simp [nmGet, hak] at h
      exact List.mem_cons_of_mem _ (ih h)

theorem mem_nmModify {m : NodeMap} {k : String}
    {f : PermissionNode → PermissionNode} {kv : String × PermissionNode}
    (h : kv ∈ nmModify m k f) :
    kv ∈ m ∨ ∃ v, kv = (k, f v) ∧ (k, v) ∈ m := by
  induction m with
  | nil => simp [nmModify] at h
  | cons hd tl ih =>
    obtain ⟨a, b⟩ := hd
    by_cases hak : a = k
    · subst hak
      simp [nmModify] at h
      rcases h with h | h
      · exact Or.inr ⟨b, by simp [h]⟩
      · exact Or.inl (List.mem_cons_of_mem _ h)
    · simp [nmModify, hak] at h
      rcases h with h | h
      · exact Or.inl (by simp [h])
      · rcases ih h with h2 | ⟨v, hv, hm⟩
        · exact Or.inl (List.mem_cons_of_mem _ h2)
        · exact Or.inr ⟨v, hv, List.mem_cons_of_mem _ hm⟩

theorem mem_nmInsert {m : NodeMap} {k : String} {v : PermissionNode}
    {kv : String × PermissionNode} (h : kv ∈ nmInsert m k v) :
    kv ∈ m ∨ kv = (k, v) := by
  induction m with
  | nil => simp [nmInsert] at h; exact Or.inr h
  | cons hd tl ih =>
    obtain ⟨a, b⟩ := hd
    by_cases hak : a = k
    · subst hak
      simp [nmInsert] at h
      rcases h with h | h
      · exact Or.inr (by simp [h])
      · exact Or.inl (List.mem_cons_of_mem _ h)
    · simp [nmInsert, hak] at h
      rcases h with h | h
      · exact Or.inl (by simp [h])
      · rcases ih h with h2 | h2
        · exact Or.inl (List.mem_cons_of_mem _ h2)
        · exact Or.inr h2

theorem nmModify_keys (m : NodeMap) (k : String)
    (f : PermissionNode → PermissionNode) :
    (nmModify m k f).map Prod.fst = m.map Prod.fst := by
  induction m with
  | nil => rfl
  | cons hd tl ih =>
    obtain ⟨a, b⟩ := hd
    by_cases hak : a = k <;> simp [nmModify, hak, ih]

theorem nmGet_none_not_mem {m : NodeMap} {k : String}
    (h : nmGet m k = none) : k ∉ m.map Prod.fst := by
  induction m with
  | nil => simp
  | cons hd tl ih =>
    obtain ⟨a, b⟩ := hd
    by_cases hak : a = k
    · subst hak
      simp [nmGet] at h
    · simp [nmGet, hak] at h
      simp [ih h, Ne.symm hak]

theorem nmInsert_keys (m : NodeMap) (k : String) (v : PermissionNode) :
    (nmInsert m k v).map Prod.fst =
      if (nmGet m k).isSome then m.map Prod.fst
      else m.map Prod.fst ++ [k] := by
  induction m with
  | nil => simp [nmInsert, nmGet]
  | cons hd tl ih =>
    obtain ⟨a, b⟩ := hd
    by_cases hak : a = k
    · subst hak
      simp [nmInsert, nmGet]
    · simp only [nmInsert, nmGet, if_neg hak, Ne.symm hak, List.map_cons, ih]
      by_cases hs : (nmGet tl k).isSome <;> simp [hs]

theorem nmInsert_keys_nodup {m : NodeMap} {k : String} {v : PermissionNode}
    (h : (m.map Prod.fst).Nodup) :
    ((nmInsert m k v).map Prod.fst).Nodup := by
  rw [nmInsert_keys]
  by_cases hs : (nmGet m k).isSome
  · simpa [hs] using h
  · have hnone : nmGet m k = none := by
      cases hg : nmGet m k
      · rfl
      · simp [hg] at hs
    simp only [hs, if_false, Bool.false_eq_true]
    simp [List.nodup_append, h, nmGet_none_not_mem hnone]

theorem nmGet_foldl_modify (l : List String) (m : NodeMap) (key : String)
    (f : PermissionNode → PermissionNode) (h : key ∉ l) :
    nmGet (l.foldl (fun ns cp => nmModify ns cp f) m) key = nmGet m key := by
  induction l generalizing m with
  | nil => rfl
  | cons c cs ih =>
    simp at h
    rw [List.foldl_cons, ih _ h.2, nmGet_modify]
    simp [Ne.symm h.1]

theorem keys_foldl_modify (l : List String) (m : NodeMap)
    (f : PermissionNode → PermissionNode) :
    (l.foldl (fun ns cp => nmModify ns cp f) m).map Prod.fst =
      m.map Prod.fst := by
  induction l generalizing m with
  | nil => rfl
  | cons c cs ih => rw [List.foldl_cons, ih, nmModify_keys]

/-! Structural lemmas unfolding the tree operations, case by case. -/

theorem add_node_none_eq {t : PermissionTree} {path : String} {d : Bool}
    {o : String} (h : nmGet t.nodes (parent_path path) = none) :
    t.add_node path d o =
      (t, Except.error
        (Error.TokenError ("Parent not found: " ++ parent_path path))) := by
  unfold PermissionTree.add_node
  simp only [h]

theorem add_node_some_eq {t : PermissionTree} {path : String} {d : Bool}
    {o : String} {parent : PermissionNode}
    (h : nmGet t.nodes (parent_path path) = some parent) :
    t.add_node path d o =
      ({ t with
          nodes :=
            nmInsert
              ((parent.children ++ [path]).foldl
                (fun ns cp =>
                  nmModify ns cp (fun c =>
                    { c with
                      stake_percent :=
                        (if parent.generation = 0 then 1 - ROOT_STAKE_PERCENT
                          else parent.stake_percent) /
                          (((parent.children ++ [path]).length + 1 : Nat) : ℚ)
                      stake_tokens :=
                        ratToU64 ((t.total_stake : ℚ) *
                          ((if parent.generation = 0 then 1 - ROOT_STAKE_PERCENT
                            else parent.stake_percent) /
                            (((parent.children ++ [path]).length + 1 : Nat) : ℚ))) }))
                (nmModify t.nodes (parent_path path)
                  (fun p => { p with children := p.children ++ [path] })))
              path
              (PermissionNode.new_child path d parent parent.children.length o) },
        Except.ok
          (PermissionNode.new_child path d parent parent.children.length o)) := by
  unfold PermissionTree.add_node PermissionTree.recalculate_siblings
  simp [h, nmGet_modify]

theorem record_edit_none_eq {t : PermissionTree} {path editor : String}
    (h : nmGet t.nodes path = none) :
    t.record_edit path editor =
      (t, Except.error (Error.TokenError ("Node not found"))) := by
  unfold PermissionTree.record_edit
  simp only [h]

theorem record_edit_some_eq {t : PermissionTree} {path editor : String}
    {n : PermissionNode} (h : nmGet t.nodes path = some n) :
    t.record_edit path editor =
      ({ t with
          nodes :=
            nmModify t.nodes path
              (fun m => { m with edit_count := m.edit_count + 1, last_modified := 0 })
          internal_audits := t.internal_audits + 1 },
        Except.ok
          { audit_type := AuditType.Internal
            path := path
            editor := editor
            timestamp := 0
            audit_number := t.internal_audits + 1
            swap_amount := AUDIT_SWAP_AMOUNT }) := by
  unfold PermissionTree.record_edit
  simp [h]

theorem add_node_counters (t : PermissionTree) (path : String) (d : Bool)
    (o : String) :
    (t.add_node path d o).1.internal_audits = t.internal_audits ∧
      (t.add_node path d o).1.external_audits = t.external_audits := by
  cases h : nmGet t.nodes (parent_path path) with
  | none => rw [add_node_none_eq h]; exact ⟨rfl, rfl⟩
  | some parent => rw [add_node_some_eq h]; exact ⟨rfl, rfl⟩

theorem record_edit_err_state {t : PermissionTree} {path editor : String}
    (h : exceptIsErr (t.record_edit path editor).2 = true) :
    (t.record_edit path editor).1 = t := by
  cases hg : nmGet t.nodes path with
  | none => rw [record_edit_none_eq hg]
  | some n => rw [record_edit_some_eq hg] at h; simp [exceptIsErr] at h

/-- Claim C10 — error atomicity: whenever `add_node` or `record_edit`
returns an error the tree is returned unchanged (no node inserted or
modified, no children list grown, no audit counter incremented), and
`validate_edit` (which takes `&self` in the source) never changes the
state at all. -/
theorem C10_error_atomicity (t : PermissionTree) (p : String) (d : Bool)
    (o q e : String) (s : TokenAmount) :
    (exceptIsErr (t.add_node p d o).2 = true → (t.add_node p d o).1 = t) ∧
    (exceptIsErr (t.record_edit q e).2 = true → (t.record_edit q e).1 = t) ∧
    (t.validate_edit q s).1 = t := by
  refine ⟨?_, record_edit_err_state, ?_⟩
  · intro h
    cases hg : nmGet t.nodes (parent_path p) with
    | none => rw [add_node_none_eq hg]
    | some parent =>
      rw [add_node_some_eq hg] at h
      simp [exceptIsErr] at h
  · cases hg : nmGet t.nodes q with
    | none => simp [PermissionTree.validate_edit, hg]
    | some n =>
      simp only [PermissionTree.validate_edit, hg]
      split
      · rfl
      · rfl

/-- Witness for C10 at concrete inputs: inserting `/a/b` into the fresh
tree fails (no `/a` yet), as does recording an edit at a missing path, and
both leave the tree equal to `tree0`; `validate_edit` returns the tree
unchanged. -/
theorem C10_error_atomicity_witness :
    (exceptIsErr (tree0.add_node ("/a/b") true ("u")).2 = true ∧
      (tree0.add_node ("/a/b") true ("u")).1 = tree0) ∧
    (exceptIsErr (tree0.record_edit ("/nope") ("u")).2 = true ∧
      (tree0.record_edit ("/nope") ("u")).1 = tree0) ∧
    (tree0.validate_edit ("/nope") 5).1 = tree0 :=
  ⟨⟨by rfl,
    (C10_error_atomicity tree0 ("/a/b") true ("u") ("/nope") ("u") 5).1 (by rfl)⟩,
   ⟨by rfl,
    (C10_error_atomicity tree0 ("/a/b") true ("u") ("/nope") ("u") 5).2.1 (by rfl)⟩,
   (C10_error_atomicity tree0 ("/a/b") true ("u") ("/nope") ("u") 5).2.2⟩

/-- Claim C3, counterexample: the claim says that inserting `/a/b` into a
tree that contains `/` but not `/a` succeeds, with `/` as the resolved
ancestor; in the code `add_node` strips exactly one segment (`parent_path`)
and fails because `/a` is absent, even though the ancestor `/` exists. -/
theorem C3_counterexample :
    tree0.get ("/") ≠ none ∧
    (tree0.add_node ("/a/b") true ("u")).2 =
      Except.error (Error.TokenError ("Parent not found: /a")) := by
  constructor
  · decide
  · rfl

/-- Claim C3, amended: `add_node` resolves only the immediate parent — it
strips the last path segment once and fails exactly when the resulting
single parent path is absent from the tree (it never walks further upward,
and it never panics: the embedding is a total function). -/
theorem C3_parent_resolution (t : PermissionTree) (p : String) (d : Bool)
    (o : String) :
    exceptIsErr (t.add_node p d o).2 = (nmGet t.nodes (parent_path p)).isNone := by
  cases hg : nmGet t.nodes (parent_path p) with
  | none => rw [add_node_none_eq hg]; rfl
  | some parent => rw [add_node_some_eq hg]; rfl

/-- Claim C6, counterexample: the claim states that `can_distribute` is
`false` for `GovernanceLevel::Developer`; in the code the `Developer`
arm is grouped with `Admin` and returns `true`. -/
theorem C6_counterexample : GovernanceLevel.Developer.can_distribute = true :=
  rfl

/-- Claim C6, amended: `Root` has neither capability bit set;
`Developer` cannot accumulate but CAN distribute — only `Root` is fully
hard-frozen at the capability-bit level. -/
theorem C6_capability_bits :
    GovernanceLevel.Root.can_accumulate = false ∧
    GovernanceLevel.Root.can_distribute = false ∧
    GovernanceLevel.Developer.can_accumulate = false ∧
    GovernanceLevel.Developer.can_distribute = true := by
  decide

/-- Claim C4, counterexample: calling `add_node` with the path `"/"`
itself is accepted (its `parent_path` is `"/"`, which exists) and
overwrites the root entry with a generation-1 child holding stake
`0.49`, so "the root's stake is never altered by any number of
`add_node` calls" fails as stated. -/
theorem C4_counterexample :
    (((tree0.add_node ("/") true ("evil")).1.get ("/")).map
        PermissionNode.stake_percent = some (49 / 100)) ∧
      (49 : ℚ) / 100 ≠ ROOT_STAKE_PERCENT := by
  constructor
  · simp [tree0, PermissionTree.new, PermissionTree.add_node,
      PermissionTree.recalculate_siblings, PermissionNode.new_child,
      PermissionNode.new_root, parent_path, splitChar, trimEndSlashes,
      joinSlash, nmGet, nmInsert, nmModify, PermissionTree.get,
      ROOT_STAKE_PERCENT, ratToU64]
    norm_num
  · norm_num [ROOT_STAKE_PERCENT]

theorem NoRootChild_nmModify {m : NodeMap} {k : String}
    {f : PermissionNode → PermissionNode} (h : NoRootChild m)
    (hf : ∀ n, ("/") ∉ n.children → ("/") ∉ (f n).children) :
    NoRootChild (nmModify m k f) := by
  intro kv hkv
  rcases mem_nmModify hkv with h1 | ⟨v, hv, hm⟩
  · exact h _ h1
  · rw [hv]
    exact hf v (h _ hm)

theorem NoRootChild_foldl {l : List String} {m : NodeMap}
    {f : PermissionNode → PermissionNode} (h : NoRootChild m)
    (hf : ∀ n, ("/") ∉ n.children → ("/") ∉ (f n).children) :
    NoRootChild (l.foldl (fun ns cp => nmModify ns cp f) m) := by
  induction l generalizing m with
  | nil => exact h
  | cons c cs ih => exact ih (NoRootChild_nmModify h hf)

theorem NoRootChild_nmInsert {m : NodeMap} {k : String} {v : PermissionNode}
    (h : NoRootChild m) (hv : ("/") ∉ v.children) :
    NoRootChild (nmInsert m k v) := by
  intro kv hkv
  rcases mem_nmInsert hkv with h1 | h1
  · exact h _ h1
  · rw [h1]
    exact hv

theorem add_node_preserves_root {t : PermissionTree} {total : TokenAmount}
    {p : String} {d : Bool} {o : String} (hp : p ≠ "/")
    (hroot : RootIntact t total) (hnc : NoRootChild t.nodes) :
    RootIntact (t.add_node p d o).1 total ∧
      NoRootChild (t.add_node p d o).1.nodes := by
  cases hg : nmGet t.nodes (parent_path p) with
  | none =>
    rw [add_node_none_eq hg]
    exact ⟨hroot, hnc⟩
  | some parent =>
    have hpc : ("/") ∉ parent.children := hnc _ (nmGet_mem hg)
    have hnotmem : ("/") ∉ parent.children ++ [p] := by
      simp [hpc, Ne.symm hp]
    rw [add_node_some_eq hg]
    constructor
    · unfold RootIntact at hroot ⊢
      rw [nmGet_insert, if_neg hp, nmGet_foldl_modify _ _ _ _ hnotmem,
        nmGet_modify]
      by_cases hpp : parent_path p = "/"
      · rw [if_pos hpp]
        cases hx : nmGet t.nodes ("/") with
        | none => rw [hx] at hroot; simp at hroot
        | some r =>
          rw [hx] at hroot
          simpa using hroot
      · rw [if_neg hpp]
        exact hroot
    · refine NoRootChild_nmInsert (NoRootChild_foldl (NoRootChild_nmModify hnc ?_) ?_) ?_
      · intro n hn
        simp [hn, Ne.symm hp]
      · intro n hn
        simpa using hn
      · simp [PermissionNode.new_child]

theorem runAdds_root_invariant (adds : List (String × Bool × String)) :
    ∀ (t : PermissionTree) (total : TokenAmount),
      (∀ a ∈ adds, a.1 ≠ "/") → RootIntact t total → NoRootChild t.nodes →
      RootIntact (runAdds t adds) total ∧ NoRootChild (runAdds t adds).nodes := by
  induction adds with
  | nil =>
    intro t total _ h1 h2
    exact ⟨h1, h2⟩
  | cons a rest ih =>
    intro t total h h1 h2
    have step :=
      @add_node_preserves_root t total a.1 a.2.1 a.2.2 (h a (by simp)) h1 h2
    exact ih _ total (fun b hb => h b (by simp [hb])) step.1 step.2

/-- Claim C4, amended: for any number of `add_node` calls whose paths are
all different from `"/"`, the root entry keeps `stake_share =
ROOT_SHARE = 0.51` and `stake_amount = ⌊total_supply × 0.51⌋` (the value
computed at construction); only the degenerate insertion of the path
`"/"` itself can disturb the root. -/
theorem C4_root_immutable (owner : String) (total : TokenAmount)
    (adds : List (String × Bool × String)) (h : ∀ a ∈ adds, a.1 ≠ "/") :
    RootIntact (runAdds (PermissionTree.new owner total) adds) total := by
  refine (runAdds_root_invariant adds _ total h ?_ ?_).1
  · unfold RootIntact PermissionTree.new PermissionNode.new_root nmGet
    simp
  · intro kv hkv
    simp [PermissionTree.new] at hkv
    rw [hkv]
    simp [PermissionNode.new_root]

/-- Witness for C4 at a concrete input: one insertion of `/etc` into the
100-unit tree keeps the root intact. -/
theorem C4_root_immutable_witness :
    (∀ a ∈ [(("/etc" : String), true, ("root" : String))], a.1 ≠ "/") ∧
      RootIntact (runAdds (PermissionTree.new ("root") 100)
        [("/etc", true, "root")]) 100 :=
  ⟨by decide, C4_root_immutable ("root") 100 _ (by decide)⟩

theorem add_node_keys_nodup {t : PermissionTree} {p : String} {d : Bool}
    {o : String} (h : (t.nodes.map Prod.fst).Nodup) :
    ((t.add_node p d o).1.nodes.map Prod.fst).Nodup := by
  cases hg : nmGet t.nodes (parent_path p) with
  | none =>
    rw [add_node_none_eq hg]
    exact h
  | some parent =>
    rw [add_node_some_eq hg]
    refine nmInsert_keys_nodup ?_
    rw [keys_foldl_modify, nmModify_keys]
    exact h

theorem record_edit_keys_nodup {t : PermissionTree} {p e : String}
    (h : (t.nodes.map Prod.fst).Nodup) :
    ((t.record_edit p e).1.nodes.map Prod.fst).Nodup := by
  cases hg : nmGet t.nodes p with
  | none =>
    rw [record_edit_none_eq hg]
    exact h
  | some n =>
    rw [record_edit_some_eq hg]
    simpa [nmModify_keys] using h

theorem applyOp_recordEdit_fst (t : PermissionTree) (p e : String) :
    (applyOp t (Op.recordEdit p e)).1 = (t.record_edit p e).1 := by
  unfold applyOp
  cases hr : t.record_edit p e with
  | mk t1 res => cases res <;> simp [hr]

theorem runOps_keys_nodup (ops : List Op) :
    ∀ t : PermissionTree, (t.nodes.map Prod.fst).Nodup →
      ((runOps t ops).nodes.map Prod.fst).Nodup := by
  induction ops with
  | nil => intro t h; exact h
  | cons op rest ih =>
    intro t h
    show ((runOps (applyOp t op).1 rest).nodes.map Prod.fst).Nodup
    cases op with
    | addNode p d o => exact ih _ (add_node_keys_nodup h)
    | recordEdit p e =>
      rw [applyOp_recordEdit_fst]
      exact ih _ (record_edit_keys_nodup h)
    | recordExternal peer => exact ih _ h

/-- Claim C9, amended: after any sequence of operations (including
`add_node` calls repeating a path already present) the nodes map has
pairwise-distinct keys, so a path identifies at most one node; however the
claim's second half fails — a repeated insertion leaves the path listed
twice in its parent's children vector (see the counterexample). -/
theorem C9_path_unique_key (owner : String) (total : TokenAmount)
    (ops : List Op) :
    ((runOps (PermissionTree.new owner total) ops).nodes.map Prod.fst).Nodup := by
  refine runOps_keys_nodup ops _ ?_
  simp [PermissionTree.new]

/-- Claim C9, counterexample: inserting `/etc` twice makes the root's
children list `["/etc", "/etc"]`, so the inserted path occurs twice in its
parent's children list, contradicting "occurs at most once". -/
theorem C9_counterexample :
    (treeDup.get ("/")).map PermissionNode.children = some [("/etc"), ("/etc")] ∧
      (treeDup.get ("/")).map (fun n => n.children.count ("/etc")) = some 2 := by
  constructor <;> rfl

/-- Claim C1: evaluating the code on the spec's concrete cascade scenario.
After inserting 4 children, `/etc` holds share `49/500 = 0.098`, not the
claimed `0.1225` (only the youngest child `/tmp` holds `49/400 = 0.1225`);
the crate's own `test_child_stake_distribution` assertion
`(etc.stake_percent - 0.1225).abs() < 0.01` is false on this value.  After
the 5th insertion `/etc` holds `49/600`, not the claimed `0.098` (only
`/usr` holds `49/500 = 0.098`). -/
theorem C1_cascade_divergence :
    (tree4.get ("/etc")).map PermissionNode.stake_percent = some (49 / 500) ∧
    (tree4.get ("/tmp")).map PermissionNode.stake_percent = some (49 / 400) ∧
    (49 : ℚ) / 500 ≠ 49 / 400 ∧
    ¬ |(49 : ℚ) / 500 - 1225 / 10000| < 1 / 100 ∧
    (tree5.get ("/etc")).map PermissionNode.stake_percent = some (49 / 600) ∧
    (tree5.get ("/usr")).map PermissionNode.stake_percent = some (49 / 500) := by
  have habs : ¬ |(49 : ℚ) / 500 - 1225 / 10000| < 1 / 100 := by
    rw [show (49 : ℚ) / 500 - 1225 / 10000 = -(49 / 2000) by norm_num, abs_neg,
      abs_of_pos (by norm_num : (0 : ℚ) < 49 / 2000)]
    norm_num
  refine ⟨?_, ?_, by norm_num, habs, ?_, ?_⟩ <;>
  · simp [tree5, tree4, tree0, runAdds, PermissionTree.new,
      PermissionTree.add_node, PermissionTree.recalculate_siblings,
      PermissionNode.new_child, PermissionNode.new_root, parent_path,
      splitChar, trimEndSlashes, joinSlash, nmGet, nmInsert, nmModify,
      PermissionTree.get, ROOT_STAKE_PERCENT, ratToU64]
    norm_num

/-- Claim C2: evaluating the code on two root-child insertions.  The
first-generation shares sum to `49/300 + 49/200 = 49/120 ≈ 0.408`, which
misses `1 − ROOT_SHARE = 0.49` by `49/600 ≈ 0.0817`, far beyond the
claimed `1e-9` tolerance. -/
theorem C2_sum_invariant_violated :
    gen1ShareSum tree2 = 49 / 120 ∧
      ¬ |gen1ShareSum tree2 - (1 - ROOT_STAKE_PERCENT)| ≤ 1 / 1000000000 := by
  have h : gen1ShareSum tree2 = 49 / 120 := by
    simp [tree2, tree0, runAdds, PermissionTree.new, PermissionTree.add_node,
      PermissionTree.recalculate_siblings, PermissionNode.new_child,
      PermissionNode.new_root, parent_path, splitChar, trimEndSlashes,
      joinSlash, nmGet, nmInsert, nmModify, ROOT_STAKE_PERCENT, ratToU64,
      gen1ShareSum]
    norm_num
  refine ⟨h, ?_⟩
  rw [h]
  rw [show (49 : ℚ) / 120 - (1 - ROOT_STAKE_PERCENT) = -(49 / 600) by
      norm_num [ROOT_STAKE_PERCENT],
    abs_neg, abs_of_pos (by norm_num : (0 : ℚ) < 49 / 600)]
  norm_num

/-- Claim C7, amended: `stake_report` is sorted by generation ascending and
then stake share descending, but there is no path tie-break in the
comparator — entries with equal generation and equal stake stay in the
underlying map's iteration order (Rust `sort_by` is stable and
`HashMap` iteration order is unspecified), which need not be lexical
(see the counterexample). -/
theorem C7_stake_report_sorted (t : PermissionTree) :
    List.Sorted reportLe t.stake_report :=
  List.sorted_insertionSort reportLe _

/-- Claim C7, counterexample: with children inserted in order `/b`, `/a`,
`/c`, the report lists the tied entries (`generation` 1, share `49/400`)
as `/b` before `/a`, although `"/a"` precedes `"/b"` in character-wise
lexicographic order — so the claimed final lexical tie-break does not
exist. -/
theorem C7_counterexample :
    (tree3s.stake_report).map StakeReport.path = [("/"), ("/c"), ("/b"), ("/a")] ∧
    (tree3s.stake_report).map StakeReport.generation = [0, 1, 1, 1] ∧
    (tree3s.stake_report).map StakeReport.stake_percent =
      [51 / 100, 49 / 300, 49 / 400, 49 / 400] ∧
    List.Lex (fun a b : Char => a < b) ("/a").data ("/b").data := by
  refine ⟨?_, ?_, ?_, List.Lex.cons (List.Lex.rel (by decide))⟩ <;>
  · simp [tree3s, tree0, runAdds, PermissionTree.new, PermissionTree.add_node,
      PermissionTree.recalculate_siblings, PermissionNode.new_child,
      PermissionNode.new_root, parent_path, splitChar, trimEndSlashes,
      joinSlash, nmGet, nmInsert, nmModify, ROOT_STAKE_PERCENT, ratToU64,
      PermissionTree.stake_report, List.insertionSort]
    norm_num [List.orderedInsert, reportLe]

/-- Claim C5, amended: `on_file_operation` fails with `NotAuthorized`
whenever the folder that `find_parent_folder` resolves for the path — the
nearest registered folder, not every frozen ancestor — is frozen, for
every possible `reason` value.  The unrestricted claim over every path
below a frozen folder fails (see the counterexample). -/
theorem C5_frozen_nearest (S : GovernanceSystem) (p : String)
    (reason : SwapReason)
    (h : (fmGet S.folders (find_parent_folder p S.folders)).map
        (fun f => f.wallet.frozen) = some true) :
    (S.on_file_operation p reason).2 = Except.error Error.NotAuthorized := by
  cases hg : fmGet S.folders (find_parent_folder p S.folders) with
  | none =>
    rw [hg] at h
    simp at h
  | some folder =>
    rw [hg] at h
    have hf : folder.wallet.frozen = true := by simpa using h
    unfold GovernanceSystem.on_file_operation
    simp only [hg, hf, if_true]

/-- Witness for C5 at a concrete state: the bootstrapped system refuses a
file operation under the frozen `/gently/core` (which is also the nearest
registered folder for this path). -/
theorem C5_frozen_nearest_witness :
    ((fmGet govSysInit.folders
        (find_parent_folder ("/gently/core/test.rs") govSysInit.folders)).map
        (fun f => f.wallet.frozen) = some true) ∧
    (govSysInit.on_file_operation ("/gently/core/test.rs")
        SwapReason.FileCreated).2 = Except.error Error.NotAuthorized :=
  ⟨by decide,
   C5_frozen_nearest govSysInit ("/gently/core/test.rs") SwapReason.FileCreated
     (by decide)⟩

/-- Claim C5, counterexample: in the reachable state that additionally
registers the non-frozen Admin folder `/gently/core/sub` below the frozen
`/gently/core`, the path `/gently/core/sub/evil.rs` lies under the frozen
folder, yet `on_file_operation` succeeds, because `find_parent_folder`
stops at the nearest registered folder and the frozen check never sees
`/gently/core`. -/
theorem C5_counterexample :
    (fmGet govSysNested.folders ("/gently/core")).map
        (fun f => f.wallet.frozen) = some true ∧
    pathUnder ("/gently/core") ("/gently/core/sub/evil.rs") = true ∧
    exceptIsErr (govSysNested.on_file_operation ("/gently/core/sub/evil.rs")
        SwapReason.FileCreated).2 = false := by
  refine ⟨by decide, by decide, by decide⟩

theorem record_external_eq (t : PermissionTree) (peer : String) :
    t.record_external_audit peer =
      ({ t with external_audits := t.external_audits + 1 },
        { audit_type := AuditType.External
          path := "/"
          editor := peer
          timestamp := 0
          audit_number := t.external_audits + 1
          swap_amount := AUDIT_SWAP_AMOUNT }) := rfl

theorem internalNums_cons_int {r : AuditRecord} {recs : List AuditRecord}
    (h : r.audit_type = AuditType.Internal) :
    internalNums (r :: recs) = r.audit_number :: internalNums recs := by
  simp [internalNums, h]

theorem internalNums_cons_ext {r : AuditRecord} {recs : List AuditRecord}
    (h : r.audit_type = AuditType.External) :
    internalNums (r :: recs) = internalNums recs := by
  simp [internalNums, h]

theorem externalNums_cons_ext {r : AuditRecord} {recs : List AuditRecord}
    (h : r.audit_type = AuditType.External) :
    externalNums (r :: recs) = r.audit_number :: externalNums recs := by
  simp [externalNums, h]

theorem externalNums_cons_int {r : AuditRecord} {recs : List AuditRecord}
    (h : r.audit_type = AuditType.Internal) :
    externalNums (r :: recs) = externalNums recs := by
  simp [externalNums, h]

theorem runAudits_nums (ops : List Op) :
    ∀ t : PermissionTree,
      internalNums (runAudits t ops).2 =
        List.range' (t.internal_audits + 1)
          (internalNums (runAudits t ops).2).length ∧
      externalNums (runAudits t ops).2 =
        List.range' (t.external_audits + 1)
          (externalNums (runAudits t ops).2).length := by
  induction ops with
  | nil =>
    intro t
    simp [runAudits, internalNums, externalNums]
  | cons op rest ih =>
    intro t
    cases op with
    | addNode p d o =>
      have hc := add_node_counters t p d o
      have hrec := ih (t.add_node p d o).1
      simp only [runAudits, applyOp]
      rw [hc.1] at hrec
      rw [hc.2] at hrec
      exact hrec
    | recordEdit p e =>
      cases hg : nmGet t.nodes p with
      | none =>
        have he := @record_edit_none_eq t p e hg
        simp only [runAudits, applyOp, he]
        exact ih t
      | some n =>
        have he := @record_edit_some_eq t p e n hg
        simp only [runAudits, applyOp, he]
        have hrec := ih ({ t with
          nodes :=
            nmModify t.nodes p
              (fun m => { m with edit_count := m.edit_count + 1, last_modified := 0 })
          internal_audits := t.internal_audits + 1 })
        constructor
        · rw [internalNums_cons_int rfl, List.length_cons,
            List.range'_succ _ _ 1]
          exact congrArg (List.cons (t.internal_audits + 1)) hrec.1
        · rw [externalNums_cons_int rfl]
          exact hrec.2
    | recordExternal peer =>
      have he := record_external_eq t peer
      simp only [runAudits, applyOp, he]
      have hrec := ih { t with external_audits := t.external_audits + 1 }
      constructor
      · rw [internalNums_cons_ext rfl]
        exact hrec.1
      · rw [externalNums_cons_ext rfl, List.length_cons,
          List.range'_succ _ _ 1]
        exact congrArg (List.cons (t.external_audits + 1)) hrec.2

/-- Claim C8 — audit sequence numbers: over any sequence of operations on
a fresh tree (including sequences where some `record_edit` calls fail
with a node-not-found error and produce nothing), the `audit_number`s
carried by the returned records are, per kind, exactly `1, 2, 3, …` —
strictly increasing and gap-free starting at 1. -/
theorem C8_audit_numbers (owner : String) (total : TokenAmount)
    (ops : List Op) :
    internalNums (runAudits (PermissionTree.new owner total) ops).2 =
      List.range' 1
        (internalNums (runAudits (PermissionTree.new owner total) ops).2).length ∧
    externalNums (runAudits (PermissionTree.new owner total) ops).2 =
      List.range' 1
        (externalNums (runAudits (PermissionTree.new owner total) ops).2).length :=
  runAudits_nums ops (PermissionTree.new owner total)

end GentlyOS
